import Mathlib

/-!
Shallow embedding of the vmap library core (size arithmetic, the error
taxonomy, the `Map`/`MapMut` handles with their builder, and the two ring
buffer types), together with theorems settling the specification claims.

Machine integers (`usize`, `u64`) are modelled as `Nat`; the claims under
verification are scoped to exact integer arithmetic, and every quantity
involved stays far below the respective word size on the control paths the
claims describe.  Host primitives (`protect`, `flush`, `advise`, `lock`,
`unlock`, `map_file`, `map_anon`, `map_ring`) are modelled as explicit
function parameters or as their successfully returned pointer, so that the
library-side control flow around them is captured exactly.
-/

namespace Vmap

/-- Power-of-two unit size, from `struct Size(usize)` in `src/lib.rs`.  The
field is the byte size of the unit (page size or allocation granularity);
the source requires it to be a power of two. -/
structure Size where
  size : Nat
deriving DecidableEq

/-- From `Size::offset` in `src/lib.rs`: `len & (self.0 - 1)`. -/
def Size.offset (s : Size) (n : Nat) : Nat :=
  n &&& (s.size - 1)

/-- From `Size::truncate` in `src/lib.rs`: `len & !(self.0 - 1)`.  In exact
(unbounded) integer arithmetic, keeping every bit except the low ones equals
subtracting the low bits `len & (self.0 - 1)`. -/
def Size.truncate (s : Size) (n : Nat) : Nat :=
  n - (n &&& (s.size - 1))

/-- From `Size::round` in `src/lib.rs`: `self.truncate(len + self.0 - 1)`. -/
def Size.round (s : Size) (n : Nat) : Nat :=
  s.truncate (n + s.size - 1)

/-- From `Size::bounds` in `src/lib.rs`: for a pointer and length, the
containing whole-unit range: `(ptr - offset(ptr), round(len + offset(ptr)))`.
Pointers are modelled as natural addresses. -/
def Size.bounds (s : Size) (ptr len : Nat) : Nat × Nat :=
  (ptr - s.offset ptr, s.round (len + s.offset ptr))

/-- From `enum Protect` in `src/lib.rs`. -/
inductive Protect where
  | ReadOnly
  | ReadWrite
  | ReadCopy
  | ReadExec
deriving DecidableEq

/-- From `enum Flush` in `src/lib.rs`. -/
inductive Flush where
  | Sync
  | Async
deriving DecidableEq

/-- From `enum Advise` in `src/lib.rs`. -/
inductive Advise where
  | Normal
  | Sequential
  | Random
  | WillNeed
  | WillNotNeed
deriving DecidableEq

/-- From `enum Extent` in `src/lib.rs`. -/
inductive Extent where
  | End
  | Exact (n : Nat)
  | Min (n : Nat)
  | Max (n : Nat)
deriving DecidableEq

/-- From `enum Operation` in `src/error.rs`. -/
inductive Operation where
  | MapFile
  | MapFileHandle
  | MapFileView
  | MapAnonymous
  | MapAnonymousHandle
  | MapAnonymousView
  | Unmap
  | Protect
  | Advise
  | Lock
  | Unlock
  | Flush
  | RingAllocate
  | RingDeallocate
  | RingEntry
  | RingPrimary
  | RingSecondary
  | MemoryFd
  | None
deriving DecidableEq

/-- From `enum Input` in `src/error.rs`. -/
inductive Input where
  | InvalidRange
  | NullPtr
deriving DecidableEq

/-- Kinds of `std::io::Error` values that the library observes through
`kind()`; a representative subset of `std::io::ErrorKind`. -/
inductive IoErrorKind where
  | NotFound
  | PermissionDenied
  | InvalidInput
  | Other
deriving DecidableEq

/-- Model of a host `std::io::Error`: its kind, and the raw OS error code
when the value was built from `errno`/`GetLastError`. -/
structure IoError where
  kind : IoErrorKind
  rawOs : Option Int
deriving DecidableEq

/-- From `enum Repr` in `src/error.rs`: host I/O error, input-validation tag,
or kernel-specific code (`kernel::Error(c_int)`). -/
inductive ErrorRepr where
  | Io (err : IoError)
  | Input (input : Input)
  | Kernel (code : Int)
deriving DecidableEq

/-- From `struct Error` in `src/error.rs`: a representation plus the
`Operation` that raised it. -/
structure Error where
  rep : ErrorRepr
  op : Operation
deriving DecidableEq

/-- From `Error::io` in `src/error.rs`. -/
def Error.io (op : Operation) (err : IoError) : Error :=
  ⟨ErrorRepr.Io err, op⟩

/-- From `Error::input` in `src/error.rs`. -/
def Error.input (op : Operation) (i : Input) : Error :=
  ⟨ErrorRepr.Input i, op⟩

/-- From `Error::kernel` in `src/error.rs`. -/
def Error.kernel (op : Operation) (code : Int) : Error :=
  ⟨ErrorRepr.Kernel code, op⟩

/-- From `kernel::Error::kind` in `src/error.rs` (the non-Mach variant maps
every kernel code to `Other`; the claims under verification do not depend on
the Mach refinement). -/
def kernelKind (_code : Int) : IoErrorKind :=
  IoErrorKind.Other

/-- From `Error::kind` in `src/error.rs`. -/
def Error.kind (e : Error) : IoErrorKind :=
  match e.rep with
  | ErrorRepr.Io err => err.kind
  | ErrorRepr.Kernel code => kernelKind code
  | ErrorRepr.Input _ => IoErrorKind.InvalidInput

/-- From `Error.raw_os_error` in `src/error.rs`: `Some` only when the
representation wraps a host `std::io::Error`. -/
def Error.rawOsError (e : Error) : Option Int :=
  match e.rep with
  | ErrorRepr.Io err => err.rawOs
  | _ => Option.none

/-- From `Error::operation` in `src/error.rs`. -/
def Error.operation (e : Error) : Operation :=
  e.op

/-- From `struct MapMut` in `src/map.rs`: a raw pointer (modelled as a
natural address) and a byte length. -/
structure MapMut where
  ptr : Nat
  len : Nat
deriving DecidableEq

/-- From `struct Map(MapMut)` in `src/map.rs`. -/
structure Map where
  inner : MapMut
deriving DecidableEq

/-- Model of the host `protect` primitive: it receives the page-bounded
pointer and length and the requested protection, and either succeeds or
fails with an error. -/
def ProtectHost : Type :=
  Nat → Nat → Protect → Except Error Unit

/-- Model of a host primitive over a page-bounded range (`advise`, `lock`,
`unlock`; for `flush` the file and mode arguments are absorbed into the
function). -/
def RangeHost : Type :=
  Nat → Nat → Except Error Unit

/-- From `MapMut::into_map` in `src/map.rs` (lines 286-292): compute the page
bounds of the mapping, call the host `protect` with `Protect::ReadWrite`
(exactly as the source does), and on success rewrap the same pointer and
length as a `Map`; on failure return the error together with the unchanged
original handle. -/
def MapMut.intoMap (m : MapMut) (page : Size) (protectH : ProtectHost) :
    Except (Error × MapMut) Map :=
  let b := page.bounds m.ptr m.len
  match protectH b.1 b.2 Protect.ReadWrite with
  | Except.ok _ => Except.ok (Map.mk m)
  | Except.error err => Except.error (err, m)

/-- From `Map::into_map_mut` in `src/map.rs` (lines 101-107): compute the
page bounds, call the host `protect` with `Protect::ReadWrite`, and on
success return the inner `MapMut`; on failure return the error with the
unchanged original handle. -/
def Map.intoMapMut (m : Map) (page : Size) (protectH : ProtectHost) :
    Except (Error × Map) MapMut :=
  let b := page.bounds m.inner.ptr m.inner.len
  match protectH b.1 b.2 Protect.ReadWrite with
  | Except.ok _ => Except.ok m.inner
  | Except.error err => Except.error (err, m)

/-- From `MapMut::flush_range` in `src/map.rs`: validate `off + len` against
the mapping length, then flush the page bounds of the sub-range.  The host
`flush` call (with its file and mode arguments applied) is the `host`
parameter. -/
def MapMut.flushRange (m : MapMut) (page : Size) (off len : Nat)
    (host : RangeHost) : Except Error Unit :=
  if m.len < off + len then
    Except.error (Error.input Operation.Flush Input.InvalidRange)
  else
    let b := page.bounds (m.ptr + off) len
    host b.1 b.2

/-- From `MapMut::advise_range` in `src/map.rs`. -/
def MapMut.adviseRange (m : MapMut) (page : Size) (off len : Nat)
    (host : RangeHost) : Except Error Unit :=
  if m.len < off + len then
    Except.error (Error.input Operation.Advise Input.InvalidRange)
  else
    let b := page.bounds (m.ptr + off) len
    host b.1 b.2

/-- From `MapMut::lock_range` in `src/map.rs`. -/
def MapMut.lockRange (m : MapMut) (page : Size) (off len : Nat)
    (host : RangeHost) : Except Error Unit :=
  if m.len < off + len then
    Except.error (Error.input Operation.Lock Input.InvalidRange)
  else
    let b := page.bounds (m.ptr + off) len
    host b.1 b.2

/-- From `MapMut::unlock_range` in `src/map.rs`. -/
def MapMut.unlockRange (m : MapMut) (page : Size) (off len : Nat)
    (host : RangeHost) : Except Error Unit :=
  if m.len < off + len then
    Except.error (Error.input Operation.Unlock Input.InvalidRange)
  else
    let b := page.bounds (m.ptr + off) len
    host b.1 b.2

/-- From `struct Options` in `src/map.rs`, keeping the fields that take part
in the resolution algorithm (the `OpenOptions` flags only drive the host
file-open call, which is modelled by its outcome). -/
structure Options where
  resize : Extent
  len : Extent
  offset : Nat
  protect : Protect
  truncate : Bool
deriving DecidableEq

/-- File length after the truncate flag and the resize extent are applied,
from `Options::map_if` in `src/map.rs` (lines 1179-1188); `resize(sz)`
models a successful `File::set_len` returning the new size. -/
def Options.resolvedFileLen (o : Options) (flen : Nat) : Nat :=
  let flen := if o.truncate ∧ 0 < flen then 0 else flen
  match o.resize with
  | Extent.Exact sz => sz
  | Extent.Min sz => if flen < sz then sz else flen
  | Extent.Max sz => if sz < flen then sz else flen
  | Extent.End => flen

/-- User-visible mapping length resolved by `Options::map_if` in
`src/map.rs` (lines 1190-1200) from the resolved file length: `none` models
the `return Ok(None)` paths for a validly out-of-range request. -/
def Options.mapIfLen (o : Options) (flen0 : Nat) : Option Nat :=
  let off := o.offset
  let flen := o.resolvedFileLen flen0
  if flen < off then
    Option.none
  else
    let max := flen - off
    match o.len with
    | Extent.Min l => if max < l then Option.none else Option.some max
    | Extent.End => Option.some max
    | Extent.Max l => Option.some (min l max)
    | Extent.Exact l => if max < l then Option.none else Option.some l

/-- From `Options::map` in `src/map.rs` (lines 1134-1137):
`self.map_if(f)?.ok_or_else(|| Error::input(MapFile, InvalidRange))`. -/
def Options.mapLen (o : Options) (flen0 : Nat) : Except Error Nat :=
  match o.mapIfLen flen0 with
  | Option.some l => Except.ok l
  | Option.none => Except.error (Error.input Operation.MapFile Input.InvalidRange)

/-- From `Options::open_if` in `src/map.rs`: open the file (modelled by the
host outcome `openResult`, carrying the file length on success and a host
`std::io::Error` on failure, wrapped by `map_file_err` as
`Error::io(MapFile, e)`), then `map_if`. -/
def Options.openIfLen (o : Options) (openResult : Except IoError Nat) :
    Except Error (Option Nat) :=
  match openResult with
  | Except.ok flen => Except.ok (o.mapIfLen flen)
  | Except.error e => Except.error (Error.io Operation.MapFile e)

/-- From `Options::open` in `src/map.rs`: open the file (failures wrapped by
`map_file_err`), then `map`. -/
def Options.openLen (o : Options) (openResult : Except IoError Nat) :
    Except Error Nat :=
  match openResult with
  | Except.ok flen => o.mapLen flen
  | Except.error e => Except.error (Error.io Operation.MapFile e)

/-- From `Options::alloc` in `src/map.rs` (lines 1221-1231): the in-page
offset, the resolved allocation length per extent, and the resulting handle
whose pointer is the host-returned base (`basePtr`, the successful
`map_anon` result) advanced by the in-page offset. -/
def Options.alloc (o : Options) (page allocS : Size) (basePtr : Nat) : MapMut :=
  let off := page.offset o.offset
  let len := match o.len with
    | Extent.End => allocS.round (off + 1) - off
    | Extent.Min l => allocS.round (off + l) - off
    | Extent.Max l => l
    | Extent.Exact l => l
  MapMut.mk (basePtr + off) len

/-- From `struct Ring` in `src/io/ring.rs`: pointer, capacity, and the
monotone 64-bit read/write counters (modelled as `Nat`). -/
structure Ring where
  ptr : Nat
  len : Nat
  rpos : Nat
  wpos : Nat
deriving DecidableEq

/-- From `Ring::new` in `src/io/ring.rs` (lines 72-81): the capacity is the
hint rounded with `Size::alloc()`, and both counters start at zero.  The
pointer is the successful `map_ring` result. -/
def Ring.new (allocS : Size) (hint ringPtr : Nat) : Ring :=
  Ring.mk ringPtr (allocS.round hint) 0 0

/-- From `SeqRead for Ring` in `src/io/ring.rs`: `self.rpos as usize % self.len`. -/
def Ring.readOffset (r : Ring) : Nat :=
  r.rpos % r.len

/-- From `SeqRead for Ring` in `src/io/ring.rs`: `(self.wpos - self.rpos) as usize`. -/
def Ring.readLen (r : Ring) : Nat :=
  r.wpos - r.rpos

/-- From `SeqWrite for Ring` in `src/io/ring.rs`: the capacity is `self.len`. -/
def Ring.writeCapacity (r : Ring) : Nat :=
  r.len

/-- From `SeqWrite for Ring` in `src/io/ring.rs`: `self.wpos as usize % self.len`. -/
def Ring.writeOffset (r : Ring) : Nat :=
  r.wpos % r.len

/-- From `SeqWrite for Ring` in `src/io/ring.rs`:
`self.write_capacity() - self.read_len()`. -/
def Ring.writeLen (r : Ring) : Nat :=
  r.writeCapacity - r.readLen

/-- From `SeqWrite for Ring` in `src/io/ring.rs` (lines 143-145):
`self.wpos += cmp::min(len, self.write_len()) as u64`. -/
def Ring.feed (r : Ring) (k : Nat) : Ring :=
  { r with wpos := r.wpos + min k r.writeLen }

/-- From `BufRead for Ring` in `src/io/ring.rs` (lines 153-155):
`self.rpos += cmp::min(len, self.read_len()) as u64`. -/
def Ring.consume (r : Ring) (k : Nat) : Ring :=
  { r with rpos := r.rpos + min k r.readLen }

/-- From `Ring::clear` in `src/io/ring.rs`: reset both counters. -/
def Ring.clear (r : Ring) : Ring :=
  { r with rpos := 0, wpos := 0 }

/-- One call in a `feed`/`consume` call sequence against a `Ring`. -/
inductive RingOp where
  | feed (k : Nat)
  | consume (k : Nat)
deriving DecidableEq

/-- Apply one `RingOp` to a ring state. -/
def Ring.step (r : Ring) (op : RingOp) : Ring :=
  match op with
  | RingOp.feed k => r.feed k
  | RingOp.consume k => r.consume k

/-- Run a finite sequence of `feed`/`consume` calls. -/
def Ring.run (r : Ring) (ops : List RingOp) : Ring :=
  ops.foldl Ring.step r

/-- From `struct InfiniteRing` in `src/io/ring.rs`: pointer, capacity, the
unread byte count `rlen`, and the monotone write counter `wpos`.  The `mem`
field models the `len` physical bytes of the double-mapped region (virtual
offsets `i` and `i + len` alias physical index `i`). -/
structure InfiniteRing where
  ptr : Nat
  len : Nat
  rlen : Nat
  wpos : Nat
  mem : Nat → Nat

/-- From `InfiniteRing::new` in `src/io/ring.rs` (lines 247-256): the
capacity is the hint rounded with `Size::alloc()`; anonymous pages start
zeroed. -/
def InfiniteRing.new (allocS : Size) (hint ringPtr : Nat) : InfiniteRing :=
  InfiniteRing.mk ringPtr (allocS.round hint) 0 0 (fun _ => 0)

/-- From `SeqRead for InfiniteRing` in `src/io/ring.rs`:
`(self.wpos - self.rlen) as usize % self.len`. -/
def InfiniteRing.readOffset (r : InfiniteRing) : Nat :=
  (r.wpos - r.rlen) % r.len

/-- From `SeqRead for InfiniteRing` in `src/io/ring.rs`: `self.rlen as usize`. -/
def InfiniteRing.readLen (r : InfiniteRing) : Nat :=
  r.rlen

/-- From `SeqWrite for InfiniteRing` in `src/io/ring.rs`. -/
def InfiniteRing.writeCapacity (r : InfiniteRing) : Nat :=
  r.len

/-- From `SeqWrite for InfiniteRing` in `src/io/ring.rs`:
`write_len` is always the full capacity. -/
def InfiniteRing.writeLen (r : InfiniteRing) : Nat :=
  r.writeCapacity

/-- From `SeqWrite for InfiniteRing` in `src/io/ring.rs`:
`self.wpos as usize % self.len`. -/
def InfiniteRing.writeOffset (r : InfiniteRing) : Nat :=
  r.wpos % r.len

/-- From `SeqWrite for InfiniteRing` in `src/io/ring.rs` (lines 290-293):
`wpos += min(len, write_len())` and `rlen = min(rlen + len, self.len)`. -/
def InfiniteRing.feed (r : InfiniteRing) (k : Nat) : InfiniteRing :=
  { r with
    wpos := r.wpos + min k r.writeLen
    rlen := min (r.rlen + k) r.len }

/-- From `BufRead for InfiniteRing` in `src/io/ring.rs`:
`self.rlen -= cmp::min(len, self.read_len()) as u64`. -/
def InfiniteRing.consume (r : InfiniteRing) (k : Nat) : InfiniteRing :=
  { r with rlen := r.rlen - min k r.readLen }

/-- Byte-by-byte model of `dst.copy_from_slice(..)` into the double-mapped
region: the byte written at virtual offset `pos + i` lands at physical index
`(pos + i) % len`. -/
def writeBytes (len : Nat) (mem : Nat → Nat) (pos : Nat) :
    List Nat → (Nat → Nat)
  | [] => mem
  | b :: rest =>
    writeBytes len (fun j => if j = pos % len then b else mem j) (pos + 1) rest

/-- From `Write::write_all for InfiniteRing` in `src/io/ring.rs` (lines
317-327): take the writable slice for the whole buffer (its length is
`min(write_len, buf.len)`), copy the trailing `dst.len()` bytes of the
buffer into it, `feed` that many bytes, and return `Ok(())`. -/
def InfiniteRing.writeAll (r : InfiniteRing) (buf : List Nat) :
    Except Nat Unit × InfiniteRing :=
  let dlen := min r.writeLen buf.length
  let tail := buf.length - dlen
  let r1 := { r with mem := writeBytes r.len r.mem r.writeOffset (buf.drop tail) }
  (Except.ok (), r1.feed dlen)

/-- Masking with `2^k - 1` is reduction modulo `2^k`. -/
theorem Size.offset_pow (k n : Nat) : (Size.mk (2 ^ k)).offset n = n % 2 ^ k := by
  simp only [Size.offset]
  exact Nat.and_pow_two_sub_one_eq_mod n k

/-- Clearing the low `k` bits subtracts the remainder modulo `2^k`. -/
theorem Size.truncate_pow (k n : Nat) :
    (Size.mk (2 ^ k)).truncate n = n - n % 2 ^ k := by
  simp only [Size.truncate]
  rw [Nat.and_pow_two_sub_one_eq_mod n k]

/-- Truncation expressed as a whole number of units. -/
theorem Size.truncate_pow_eq_mul (k n : Nat) :
    (Size.mk (2 ^ k)).truncate n = 2 ^ k * (n / 2 ^ k) := by
  rw [Size.truncate_pow]
  have h := Nat.div_add_mod n (2 ^ k)
  omega

/-- Rounding expressed as a whole number of units. -/
theorem Size.round_pow (k n : Nat) :
    (Size.mk (2 ^ k)).round n = 2 ^ k * ((n + 2 ^ k - 1) / 2 ^ k) := by
  simp only [Size.round]
  exact Size.truncate_pow_eq_mul k (n + 2 ^ k - 1)

/-- Rounding never shrinks the request. -/
theorem Size.le_round (k n : Nat) : n ≤ (Size.mk (2 ^ k)).round n := by
  simp only [Size.round]
  rw [Size.truncate_pow]
  have hpos : 0 < 2 ^ k := Nat.pos_pow_of_pos k (by omega)
  have hm : (n + 2 ^ k - 1) % 2 ^ k < 2 ^ k := Nat.mod_lt _ hpos
  omega

/-- Rounding overshoots by less than one unit. -/
theorem Size.round_lt (k n : Nat) : (Size.mk (2 ^ k)).round n < n + 2 ^ k := by
  simp only [Size.round]
  rw [Size.truncate_pow]
  have hpos : 0 < 2 ^ k := Nat.pos_pow_of_pos k (by omega)
  omega

/-- The rounded value is a multiple of the unit. -/
theorem Size.dvd_round (k n : Nat) : 2 ^ k ∣ (Size.mk (2 ^ k)).round n := by
  rw [Size.round_pow]
  exact Dvd.intro _ rfl

/-- Rounding a multiple of the unit returns it unchanged. -/
theorem Size.round_of_dvd (k n : Nat) (h : 2 ^ k ∣ n) :
    (Size.mk (2 ^ k)).round n = n := by
  rcases h with ⟨c, rfl⟩
  rw [Size.round_pow]
  have hpos : 0 < 2 ^ k := Nat.pos_pow_of_pos k (by omega)
  have hsub : 2 ^ k * c + 2 ^ k - 1 = 2 ^ k * c + (2 ^ k - 1) := by omega
  rw [hsub, Nat.mul_add_div hpos, Nat.div_eq_of_lt (by omega), Nat.add_zero]

/-- C7: for every power-of-two unit size `S = 2^k` and every `n`, in exact
integer arithmetic `round (truncate n) = truncate n` and
`round n ≥ n > round n - S`; and with `S = 4096` the literal values
`round 0 = 0`, `round 1 = 4096`, `round 4095 = 4096`, `round 4096 = 4096`,
`round 4097 = 8192`. -/
theorem size_round_truncate_spec (k n : Nat) :
    (Size.mk (2 ^ k)).round ((Size.mk (2 ^ k)).truncate n)
        = (Size.mk (2 ^ k)).truncate n
    ∧ n ≤ (Size.mk (2 ^ k)).round n
    ∧ ((Size.mk (2 ^ k)).round n : Int) - (2 ^ k : Int) < (n : Int)
    ∧ (Size.mk 4096).round 0 = 0
    ∧ (Size.mk 4096).round 1 = 4096
    ∧ (Size.mk 4096).round 4095 = 4096
    ∧ (Size.mk 4096).round 4096 = 4096
    ∧ (Size.mk 4096).round 4097 = 8192 := by
  refine ⟨?_, Size.le_round k n, ?_, by decide, by decide, by decide, by decide, by decide⟩
  · rw [Size.truncate_pow_eq_mul]
    exact Size.round_of_dvd k _ (Dvd.intro _ rfl)
  · have h := Size.round_lt k n
    have hcast : ((Size.mk (2 ^ k)).round n : Int) < (n : Int) + (2 ^ k : Int) := by
      exact_mod_cast h
    omega

/-- C10: an input-validation error has kind `InvalidInput` and no raw OS
error code; only an error wrapping a host `std::io::Error` can report a raw
OS error code. -/
theorem error_input_kind_raw (op : Operation) (i : Input) :
    (Error.input op i).kind = IoErrorKind.InvalidInput
    ∧ (Error.input op i).rawOsError = Option.none
    ∧ (∀ e : Error, (∀ ioe : IoError, e.rep ≠ ErrorRepr.Io ioe) →
        e.rawOsError = Option.none) := by
  refine ⟨rfl, rfl, ?_⟩
  intro e he
  obtain ⟨rep, op2⟩ := e
  cases rep with
  | Io ioe => exact absurd rfl (he ioe)
  | Input i2 => rfl
  | Kernel c => rfl

/-- Witness for C10 at concrete inputs: the input error built for a failing
`flush_range`, and a kernel error which indeed reports no raw OS code. -/
theorem error_input_kind_raw_witness :
    (Error.input Operation.Flush Input.InvalidRange).kind = IoErrorKind.InvalidInput
    ∧ (Error.kernel Operation.RingEntry 5).rawOsError = Option.none :=
  ⟨(error_input_kind_raw Operation.Flush Input.InvalidRange).1,
   (error_input_kind_raw Operation.Flush Input.InvalidRange).2.2
     (Error.kernel Operation.RingEntry 5)
     (fun _ h => ErrorRepr.noConfusion h)⟩

/-- C9: for anonymous allocations with offset 0, `Max l` and `Exact l` both
yield a map of length exactly `l` with no clamping, `End` yields one
allocation-granularity unit, and `Min l` yields `Size::alloc().round(l)`. -/
theorem alloc_len_extents (pk ak basePtr l : Nat) (resize : Extent)
    (prot : Protect) (trunc : Bool) :
    ((Options.mk resize (Extent.Max l) 0 prot trunc).alloc
        (Size.mk (2 ^ pk)) (Size.mk (2 ^ ak)) basePtr).len = l
    ∧ ((Options.mk resize (Extent.Exact l) 0 prot trunc).alloc
        (Size.mk (2 ^ pk)) (Size.mk (2 ^ ak)) basePtr).len = l
    ∧ ((Options.mk resize Extent.End 0 prot trunc).alloc
        (Size.mk (2 ^ pk)) (Size.mk (2 ^ ak)) basePtr).len = 2 ^ ak
    ∧ ((Options.mk resize (Extent.Min l) 0 prot trunc).alloc
        (Size.mk (2 ^ pk)) (Size.mk (2 ^ ak)) basePtr).len
        = (Size.mk (2 ^ ak)).round l := by
  have hpos : 0 < 2 ^ ak := Nat.pos_pow_of_pos ak (by omega)
  have hoff : (Size.mk (2 ^ pk)).offset 0 = 0 := by
    simp [Size.offset, Nat.zero_and]
  have hone : (Size.mk (2 ^ ak)).round 1 = 2 ^ ak := by
    rw [Size.round_pow]
    have h1 : 1 + 2 ^ ak - 1 = 2 ^ ak := by omega
    rw [h1, Nat.div_self hpos, Nat.mul_one]
  refine ⟨rfl, rfl, ?_, ?_⟩
  · simp [Options.alloc, hoff, hone]
  · simp [Options.alloc, hoff]

/-- C1: evaluation of `MapMut::into_map` at a concrete mapping.  Against a
host `protect` that succeeds only when asked for `ReadOnly` protection, the
conversion fails, while against a host that succeeds only when asked for
`ReadWrite` it succeeds: the source passes `Protect::ReadWrite` to `protect`
(map.rs line 288) and therefore never narrows the pages to read-only,
contradicting the read-only documentation of `Map` and the specification. -/
theorem intoMap_protect_argument :
    (MapMut.mk 0 4096).intoMap (Size.mk 4096)
        (fun _ _ prot =>
          if prot = Protect.ReadOnly then Except.ok ()
          else Except.error (Error.input Operation.Protect Input.NullPtr))
      = Except.error
          (Error.input Operation.Protect Input.NullPtr, MapMut.mk 0 4096)
    ∧ (MapMut.mk 0 4096).intoMap (Size.mk 4096)
        (fun _ _ prot =>
          if prot = Protect.ReadWrite then Except.ok ()
          else Except.error (Error.input Operation.Protect Input.NullPtr))
      = Except.ok (Map.mk (MapMut.mk 0 4096)) := by
  exact ⟨rfl, rfl⟩

/-- C8: when the host protection change fails, both conversions return the
error paired with the consumed handle unchanged (same `ptr`, same `len`), so
nothing is dropped and the caller keeps the old mapping. -/
theorem convert_failure_returns_original (page : Size) (m : MapMut) (mp : Map)
    (h : ProtectHost) (e e2 : Error)
    (hfail : h (page.bounds m.ptr m.len).1 (page.bounds m.ptr m.len).2
        Protect.ReadWrite = Except.error e)
    (hfail2 : h (page.bounds mp.inner.ptr mp.inner.len).1
        (page.bounds mp.inner.ptr mp.inner.len).2
        Protect.ReadWrite = Except.error e2) :
    m.intoMap page h = Except.error (e, m)
    ∧ mp.intoMapMut page h = Except.error (e2, mp) := by
  constructor
  · simp only [MapMut.intoMap]
    rw [hfail]
  · simp only [Map.intoMapMut]
    rw [hfail2]

/-- Witness for C8: a concrete always-failing `protect` host (permission
denied, raw OS code 13) makes both conversions hand back the exact original
handle. -/
theorem convert_failure_returns_original_witness :
    (MapMut.mk 8192 100).intoMap (Size.mk 4096)
        (fun _ _ _ => Except.error (Error.io Operation.Protect
          (IoError.mk IoErrorKind.PermissionDenied (Option.some 13))))
      = Except.error (Error.io Operation.Protect
          (IoError.mk IoErrorKind.PermissionDenied (Option.some 13)),
          MapMut.mk 8192 100)
    ∧ (Map.mk (MapMut.mk 8192 100)).intoMapMut (Size.mk 4096)
        (fun _ _ _ => Except.error (Error.io Operation.Protect
          (IoError.mk IoErrorKind.PermissionDenied (Option.some 13))))
      = Except.error (Error.io Operation.Protect
          (IoError.mk IoErrorKind.PermissionDenied (Option.some 13)),
          Map.mk (MapMut.mk 8192 100)) :=
  convert_failure_returns_original (Size.mk 4096) (MapMut.mk 8192 100)
    (Map.mk (MapMut.mk 8192 100))
    (fun _ _ _ => Except.error (Error.io Operation.Protect
      (IoError.mk IoErrorKind.PermissionDenied (Option.some 13))))
    (Error.io Operation.Protect
      (IoError.mk IoErrorKind.PermissionDenied (Option.some 13)))
    (Error.io Operation.Protect
      (IoError.mk IoErrorKind.PermissionDenied (Option.some 13)))
    rfl rfl

/-- Counterexample for C6: on a host with page size 4096 and allocation
granularity 65536 (the typical Windows values), a ring created from hint 1
has capacity 65536, not the hint rounded up to the page size (4096): the
source rounds with `Size::alloc()`, not `Size::page()`. -/
theorem ring_capacity_not_page_rounded :
    (Ring.new (Size.mk 65536) 1 0).len = 65536
    ∧ (InfiniteRing.new (Size.mk 65536) 1 0).len = 65536
    ∧ (Size.mk 4096).round 1 = 4096
    ∧ (65536 : Nat) ≠ 4096 := by
  exact ⟨rfl, rfl, by decide, by decide⟩

/-- C6 amended: `Ring::new(hint)` and `InfiniteRing::new(hint)` create a
ring whose capacity is the hint rounded up to the host allocation
granularity (`2^ak`, equal to the page size except on Windows where it may
be larger); the capacity is therefore a multiple of the page size (`2^pk`),
is at least the hint, and is nonzero whenever the hint is nonzero. -/
theorem ring_capacity_alloc_rounded (pk ak hint ringPtr : Nat) (hpa : pk ≤ ak) :
    (Ring.new (Size.mk (2 ^ ak)) hint ringPtr).len
        = (Size.mk (2 ^ ak)).round hint
    ∧ (InfiniteRing.new (Size.mk (2 ^ ak)) hint ringPtr).len
        = (Size.mk (2 ^ ak)).round hint
    ∧ hint ≤ (Ring.new (Size.mk (2 ^ ak)) hint ringPtr).len
    ∧ 2 ^ pk ∣ (Ring.new (Size.mk (2 ^ ak)) hint ringPtr).len
    ∧ (0 < hint → 0 < (Ring.new (Size.mk (2 ^ ak)) hint ringPtr).len) := by
  refine ⟨rfl, rfl, Size.le_round ak hint, ?_,
    fun h0 => Nat.lt_of_lt_of_le h0 (Size.le_round ak hint)⟩
  exact dvd_trans (pow_dvd_pow 2 hpa) (Size.dvd_round ak hint)

/-- Witness for the amended C6 at page size `2^12`, granularity `2^16`,
hint 1000. -/
theorem ring_capacity_alloc_rounded_witness :
    2 ^ 12 ∣ (Ring.new (Size.mk (2 ^ 16)) 1000 0).len
    ∧ 0 < (Ring.new (Size.mk (2 ^ 16)) 1000 0).len :=
  ⟨(ring_capacity_alloc_rounded 12 16 1000 0 (by decide)).2.2.2.1,
   (ring_capacity_alloc_rounded 12 16 1000 0 (by decide)).2.2.2.2 (by decide)⟩

/-- C4: each `*_range` operation on a `MapMut` first validates
`off + len ≤ self.len`.  On violation it returns the input-validation error
`InvalidRange` tagged with the operation of the failing call, for every
possible host behaviour (so no host primitive is invoked); otherwise it
invokes the host call on the page bounds of the sub-range, so any failure is
the host's. -/
theorem range_ops_validate (page : Size) (m : MapMut) (off len : Nat)
    (fh ah lh uh : RangeHost) :
    (m.len < off + len →
      m.flushRange page off len fh
          = Except.error (Error.input Operation.Flush Input.InvalidRange)
      ∧ m.adviseRange page off len ah
          = Except.error (Error.input Operation.Advise Input.InvalidRange)
      ∧ m.lockRange page off len lh
          = Except.error (Error.input Operation.Lock Input.InvalidRange)
      ∧ m.unlockRange page off len uh
          = Except.error (Error.input Operation.Unlock Input.InvalidRange))
    ∧ (off + len ≤ m.len →
      m.flushRange page off len fh
          = fh (page.bounds (m.ptr + off) len).1 (page.bounds (m.ptr + off) len).2
      ∧ m.adviseRange page off len ah
          = ah (page.bounds (m.ptr + off) len).1 (page.bounds (m.ptr + off) len).2
      ∧ m.lockRange page off len lh
          = lh (page.bounds (m.ptr + off) len).1 (page.bounds (m.ptr + off) len).2
      ∧ m.unlockRange page off len uh
          = uh (page.bounds (m.ptr + off) len).1 (page.bounds (m.ptr + off) len).2) := by
  constructor
  · intro hgt
    refine ⟨?_, ?_, ?_, ?_⟩ <;>
      simp [MapMut.flushRange, MapMut.adviseRange, MapMut.lockRange,
        MapMut.unlockRange, hgt]
  · intro hle
    have hnot : ¬ m.len < off + len := by omega
    refine ⟨?_, ?_, ?_, ?_⟩ <;>
      simp [MapMut.flushRange, MapMut.adviseRange, MapMut.lockRange,
        MapMut.unlockRange, hnot]

/-- Witness for C4: on a 100-byte mapping, the out-of-range request
`(50, 60)` fails with the `Flush`-tagged `InvalidRange` input error, and the
in-range request `(10, 20)` reaches the (here always-succeeding) host. -/
theorem range_ops_validate_witness :
    (MapMut.mk 0 100).flushRange (Size.mk 4096) 50 60 (fun _ _ => Except.ok ())
        = Except.error (Error.input Operation.Flush Input.InvalidRange)
    ∧ (MapMut.mk 0 100).lockRange (Size.mk 4096) 10 20 (fun _ _ => Except.ok ())
        = Except.ok () :=
  ⟨((range_ops_validate (Size.mk 4096) (MapMut.mk 0 100) 50 60
      (fun _ _ => Except.ok ()) (fun _ _ => Except.ok ())
      (fun _ _ => Except.ok ()) (fun _ _ => Except.ok ())).1 (by decide)).1,
   ((range_ops_validate (Size.mk 4096) (MapMut.mk 0 100) 10 20
      (fun _ _ => Except.ok ()) (fun _ _ => Except.ok ())
      (fun _ _ => Except.ok ()) (fun _ _ => Except.ok ())).2 (by decide)).2.2.1⟩

/-- C2: with resolved file length `L` and offset `off`, `map_if` resolves
the user-visible length as the claim states (`Ok(None)` exactly on the
validly out-of-range requests), and `map`/`open` turn precisely those
`Ok(None)` outcomes into the `InvalidRange` input error (a host open failure
surfaces as an `Io`-representation error, never as that input error). -/
theorem options_length_resolution (o : Options) (flen0 : Nat) :
    (o.resolvedFileLen flen0 < o.offset → o.mapIfLen flen0 = Option.none)
    ∧ (o.offset ≤ o.resolvedFileLen flen0 →
        (o.len = Extent.End →
          o.mapIfLen flen0 = Option.some (o.resolvedFileLen flen0 - o.offset))
        ∧ (∀ l, o.len = Extent.Min l →
            (l ≤ o.resolvedFileLen flen0 - o.offset →
              o.mapIfLen flen0 = Option.some (o.resolvedFileLen flen0 - o.offset))
            ∧ (o.resolvedFileLen flen0 - o.offset < l →
              o.mapIfLen flen0 = Option.none))
        ∧ (∀ l, o.len = Extent.Max l →
            o.mapIfLen flen0
              = Option.some (min l (o.resolvedFileLen flen0 - o.offset)))
        ∧ (∀ l, o.len = Extent.Exact l →
            (l ≤ o.resolvedFileLen flen0 - o.offset →
              o.mapIfLen flen0 = Option.some l)
            ∧ (o.resolvedFileLen flen0 - o.offset < l →
              o.mapIfLen flen0 = Option.none)))
    ∧ (o.mapLen flen0
          = Except.error (Error.input Operation.MapFile Input.InvalidRange)
        ↔ o.mapIfLen flen0 = Option.none)
    ∧ (∀ openResult : Except IoError Nat,
        o.openLen openResult
            = Except.error (Error.input Operation.MapFile Input.InvalidRange)
          ↔ o.openIfLen openResult = Except.ok Option.none) := by
  refine ⟨?_, ?_, ?_, ?_⟩
  · intro hlt
    simp [Options.mapIfLen, hlt]
  · intro hle
    have hnot : ¬ o.resolvedFileLen flen0 < o.offset := by omega
    refine ⟨?_, ?_, ?_, ?_⟩
    · intro hE
      simp [Options.mapIfLen, hnot, hE]
    · intro l hM
      constructor
      · intro hll
        have h2 : ¬ o.resolvedFileLen flen0 - o.offset < l := by omega
        simp [Options.mapIfLen, hnot, hM, h2]
      · intro hgl
        simp [Options.mapIfLen, hnot, hM, hgl]
    · intro l hX
      simp [Options.mapIfLen, hnot, hX]
    · intro l hE
      constructor
      · intro hll
        have h2 : ¬ o.resolvedFileLen flen0 - o.offset < l := by omega
        simp [Options.mapIfLen, hnot, hE, h2]
      · intro hgl
        simp [Options.mapIfLen, hnot, hE, hgl]
  · unfold Options.mapLen
    cases o.mapIfLen flen0 <;> simp
  · intro openResult
    cases openResult with
    | ok flen =>
      unfold Options.openLen Options.openIfLen Options.mapLen
      rcases h : o.mapIfLen flen with _ | l <;> simp [h]
    | error e =>
      unfold Options.openLen Options.openIfLen
      simp [Error.io, Error.input]

/-- Witness for C2 at the spec's file-window scenario: a 67-byte file,
offset 29, `Exact(30)` resolves to 30; and with `Exact(25)` on a 14-byte
file, `map` reports the `InvalidRange` input error. -/
theorem options_length_resolution_witness :
    (Options.mk Extent.End (Extent.Exact 30) 29 Protect.ReadOnly false).mapIfLen 67
        = Option.some 30
    ∧ (Options.mk Extent.End (Extent.Exact 25) 0 Protect.ReadOnly false).mapLen 14
        = Except.error (Error.input Operation.MapFile Input.InvalidRange) :=
  ⟨(((options_length_resolution
      (Options.mk Extent.End (Extent.Exact 30) 29 Protect.ReadOnly false) 67).2.1
      (by decide)).2.2.2 30 rfl).1 (by decide),
   (options_length_resolution
      (Options.mk Extent.End (Extent.Exact 25) 0 Protect.ReadOnly false) 14).2.2.1.mpr
      (by decide)⟩

/-- Unfolding equation: `feed` only moves the write cursor. -/
theorem Ring.feed_eq (r : Ring) (k : Nat) :
    (r.feed k).wpos = r.wpos + min k r.writeLen
    ∧ (r.feed k).rpos = r.rpos ∧ (r.feed k).len = r.len :=
  ⟨rfl, rfl, rfl⟩

/-- Unfolding equation: `consume` only moves the read cursor. -/
theorem Ring.consume_eq (r : Ring) (k : Nat) :
    (r.consume k).rpos = r.rpos + min k r.readLen
    ∧ (r.consume k).wpos = r.wpos ∧ (r.consume k).len = r.len :=
  ⟨rfl, rfl, rfl⟩

/-- Unfolding equation: the writable length is the capacity less the
pending readable bytes. -/
theorem Ring.writeLen_eq (r : Ring) :
    r.writeLen = r.len - (r.wpos - r.rpos) :=
  rfl

/-- One `feed` or `consume` call preserves the bounded-ring cursor
invariant and the capacity. -/
theorem Ring.step_inv (r : Ring) (op : RingOp)
    (h1 : r.rpos ≤ r.wpos) (h2 : r.wpos - r.rpos ≤ r.len) :
    (r.step op).rpos ≤ (r.step op).wpos
    ∧ (r.step op).wpos - (r.step op).rpos ≤ (r.step op).len
    ∧ (r.step op).len = r.len := by
  cases op with
  | feed k =>
    have he := Ring.feed_eq r k
    have hw := Ring.writeLen_eq r
    refine ⟨?_, ?_, he.2.2⟩ <;>
      simp only [Ring.step, he.1, he.2.1, he.2.2, hw] <;> omega
  | consume k =>
    have he := Ring.consume_eq r k
    have hr : r.readLen = r.wpos - r.rpos := rfl
    refine ⟨?_, ?_, he.2.2⟩ <;>
      simp only [Ring.step, he.1, he.2.1, he.2.2, hr] <;> omega

/-- Any finite `feed`/`consume` call sequence preserves the bounded-ring
cursor invariant and the capacity. -/
theorem Ring.run_inv (ops : List RingOp) (r : Ring)
    (h1 : r.rpos ≤ r.wpos) (h2 : r.wpos - r.rpos ≤ r.len) :
    (Ring.run r ops).rpos ≤ (Ring.run r ops).wpos
    ∧ (Ring.run r ops).wpos - (Ring.run r ops).rpos ≤ (Ring.run r ops).len
    ∧ (Ring.run r ops).len = r.len := by
  induction ops generalizing r with
  | nil => exact ⟨h1, h2, rfl⟩
  | cons op rest ih =>
    have hs := Ring.step_inv r op h1 h2
    have hrun : Ring.run r (op :: rest) = Ring.run (r.step op) rest := rfl
    rw [hrun]
    have hr := ih (r.step op) hs.1 hs.2.1
    exact ⟨hr.1, hr.2.1, hr.2.2.trans hs.2.2⟩

/-- C3: starting from `rpos = wpos = 0`, after any finite sequence of
`feed`/`consume` calls on a bounded ring of capacity `len > 0` the state
satisfies `rpos ≤ wpos`, `wpos - rpos ≤ len` and
`read_offset() + read_len() ≤ 2·len`; moreover every `feed(k)` advances
`wpos` by exactly `min(k, write_len())` with
`write_len() = len - (wpos - rpos)`, every `consume(k)` advances `rpos` by
exactly `min(k, read_len())`, and a full ring (`write_len() = 0`) accepts no
further bytes. -/
theorem ring_feed_consume_invariant (len ringPtr : Nat) (hlen : 0 < len)
    (ops : List RingOp) :
    ((Ring.run (Ring.mk ringPtr len 0 0) ops).rpos
        ≤ (Ring.run (Ring.mk ringPtr len 0 0) ops).wpos)
    ∧ ((Ring.run (Ring.mk ringPtr len 0 0) ops).wpos
        - (Ring.run (Ring.mk ringPtr len 0 0) ops).rpos ≤ len)
    ∧ ((Ring.run (Ring.mk ringPtr len 0 0) ops).readOffset
        + (Ring.run (Ring.mk ringPtr len 0 0) ops).readLen ≤ 2 * len)
    ∧ (∀ (s : Ring) (k : Nat),
        (s.feed k).wpos = s.wpos + min k s.writeLen ∧ (s.feed k).rpos = s.rpos)
    ∧ (∀ (s : Ring) (k : Nat),
        (s.consume k).rpos = s.rpos + min k s.readLen
        ∧ (s.consume k).wpos = s.wpos)
    ∧ (∀ s : Ring, s.writeLen = s.len - (s.wpos - s.rpos))
    ∧ (∀ (s : Ring) (k : Nat), s.writeLen = 0 → (s.feed k).wpos = s.wpos) := by
  have hinv := Ring.run_inv ops (Ring.mk ringPtr len 0 0)
    (Nat.le_refl 0) (Nat.zero_le len)
  have hlen2 : (Ring.run (Ring.mk ringPtr len 0 0) ops).len = len := hinv.2.2
  have hrl : (Ring.run (Ring.mk ringPtr len 0 0) ops).wpos
      - (Ring.run (Ring.mk ringPtr len 0 0) ops).rpos ≤ len := by
    have h := hinv.2.1
    omega
  refine ⟨hinv.1, hrl, ?_, ?_, ?_, ?_, ?_⟩
  · have hmod : (Ring.run (Ring.mk ringPtr len 0 0) ops).rpos
        % (Ring.run (Ring.mk ringPtr len 0 0) ops).len
        < (Ring.run (Ring.mk ringPtr len 0 0) ops).len :=
      Nat.mod_lt _ (by omega)
    simp only [Ring.readOffset, Ring.readLen]
    omega
  · exact fun s k => ⟨rfl, rfl⟩
  · exact fun s k => ⟨rfl, rfl⟩
  · exact fun s => rfl
  · intro s k h0
    have he := Ring.feed_eq s k
    rw [he.1, h0]
    simp

/-- Witness for C3 on a 4096-byte ring after feeding 10 bytes and consuming
3. -/
theorem ring_feed_consume_invariant_witness :
    (Ring.run (Ring.mk 0 4096 0 0) [RingOp.feed 10, RingOp.consume 3]).wpos
        - (Ring.run (Ring.mk 0 4096 0 0) [RingOp.feed 10, RingOp.consume 3]).rpos
        ≤ 4096
    ∧ (Ring.run (Ring.mk 0 4096 0 0) [RingOp.feed 10, RingOp.consume 3]).readOffset
        + (Ring.run (Ring.mk 0 4096 0 0) [RingOp.feed 10, RingOp.consume 3]).readLen
        ≤ 2 * 4096 :=
  ⟨(ring_feed_consume_invariant 4096 0 (by decide)
      [RingOp.feed 10, RingOp.consume 3]).2.1,
   (ring_feed_consume_invariant 4096 0 (by decide)
      [RingOp.feed 10, RingOp.consume 3]).2.2.1⟩

/-- Two virtual offsets less than one capacity apart land on distinct
physical indices. -/
theorem mod_ne_of_small_gap (p d len : Nat) (hlen : 0 < len) (hd0 : 0 < d)
    (hdl : d < len) : p % len ≠ (p + d) % len := by
  have h1 : p % len < len := Nat.mod_lt _ hlen
  have h2 : (p + d) % len = (p % len + d) % len := by
    conv_lhs => rw [Nat.add_mod, Nat.mod_eq_of_lt hdl]
  by_cases hc : p % len + d < len
  · rw [h2, Nat.mod_eq_of_lt hc]
    omega
  · have h3 : p % len + d - len < len := by omega
    have h4 : (p % len + d) % len = p % len + d - len := by
      rw [Nat.mod_eq_sub_mod (by omega), Nat.mod_eq_of_lt h3]
    rw [h2, h4]
    omega

/-- Bytes outside the written range are untouched by `writeBytes`. -/
theorem writeBytes_unchanged (bytes : List Nat) (len : Nat) (mem : Nat → Nat)
    (pos j : Nat) (hj : ∀ i, i < bytes.length → j ≠ (pos + i) % len) :
    writeBytes len mem pos bytes j = mem j := by
  induction bytes generalizing mem pos with
  | nil => rfl
  | cons b rest ih =>
    simp only [writeBytes]
    rw [ih]
    · have h0 : j ≠ pos % len := by
        have := hj 0 (by simp)
        simpa using this
      simp [h0]
    · intro i hi
      have h := hj (i + 1) (by simp only [List.length_cons]; omega)
      rw [show pos + (i + 1) = pos + 1 + i by omega] at h
      exact h

/-- The byte written at virtual offset `pos + i` is the `i`-th byte of the
copied slice. -/
theorem writeBytes_get (bytes : List Nat) (len : Nat) (mem : Nat → Nat)
    (pos i : Nat) (hlen : 0 < len) (hbl : bytes.length ≤ len)
    (hi : i < bytes.length) :
    writeBytes len mem pos bytes ((pos + i) % len) = bytes.getD i 0 := by
  induction bytes generalizing mem pos i with
  | nil => simp at hi
  | cons b rest ih =>
    cases i with
    | zero =>
      simp only [writeBytes, List.getD_cons_zero, Nat.add_zero]
      rw [writeBytes_unchanged]
      · simp
      · intro i2 hi2
        rw [show pos + 1 + i2 = pos + (1 + i2) by omega]
        apply mod_ne_of_small_gap pos (1 + i2) len hlen (by omega)
        simp only [List.length_cons] at hbl
        omega
    | succ i2 =>
      simp only [writeBytes, List.getD_cons_succ]
      rw [show pos + (i2 + 1) = pos + 1 + i2 by omega]
      apply ih
      · simp only [List.length_cons] at hbl
        omega
      · simp only [List.length_cons] at hi
        omega

/-- List indexing after a `drop`. -/
theorem getD_drop (l : List Nat) (n i : Nat) :
    (l.drop n).getD i 0 = l.getD (n + i) 0 := by
  induction n generalizing l with
  | zero => simp
  | succ n2 ih =>
    cases l with
    | nil => simp
    | cons x xs =>
      simp only [List.drop_succ_cons, ih xs, List.getD_cons_succ,
        Nat.succ_add]

/-- C5: on an overwriting ring of capacity `len > 0`, `write_all(b)` always
returns `Ok(())`, advances `wpos` by exactly `min(b.len, len)`, clamps
`rlen` to at most `len` (so `read_len() ≤ len`), keeps the capacity, leaves
`read_offset() = (wpos - rlen) mod len`, and copies exactly
`min(b.len, len)` bytes taken from the trailing end of `b` into the ring
(the leading `b.len - len` bytes of an oversized buffer are discarded). -/
theorem infiniteRing_writeAll_spec (r : InfiniteRing) (buf : List Nat)
    (hlen : 0 < r.len) :
    (r.writeAll buf).1 = Except.ok ()
    ∧ (r.writeAll buf).2.wpos = r.wpos + min buf.length r.len
    ∧ (r.writeAll buf).2.rlen = min (r.rlen + min buf.length r.len) r.len
    ∧ (r.writeAll buf).2.readLen ≤ r.len
    ∧ (r.writeAll buf).2.len = r.len
    ∧ (r.writeAll buf).2.readOffset
        = ((r.writeAll buf).2.wpos - (r.writeAll buf).2.rlen) % r.len
    ∧ (∀ i, i < min buf.length r.len →
        (r.writeAll buf).2.mem ((r.writeOffset + i) % r.len)
          = buf.getD (buf.length - min buf.length r.len + i) 0) := by
  have hw : (r.writeAll buf).2.wpos
      = r.wpos + min (min r.len buf.length) r.len := rfl
  have hrl : (r.writeAll buf).2.rlen
      = min (r.rlen + min r.len buf.length) r.len := rfl
  have hm : (r.writeAll buf).2.mem
      = writeBytes r.len r.mem r.writeOffset
          (buf.drop (buf.length - min r.len buf.length)) := rfl
  have hreadLen : (r.writeAll buf).2.readLen = (r.writeAll buf).2.rlen := rfl
  refine ⟨rfl, ?_, ?_, ?_, rfl, rfl, ?_⟩
  · rw [hw]
    omega
  · rw [hrl]
    omega
  · rw [hreadLen, hrl]
    omega
  · intro i hi
    have hdroplen : (buf.drop (buf.length - min r.len buf.length)).length
        = min r.len buf.length := by
      rw [List.length_drop]
      omega
    rw [hm]
    refine (writeBytes_get (buf.drop (buf.length - min r.len buf.length))
      r.len r.mem r.writeOffset i hlen (by rw [hdroplen]; omega)
      (by rw [hdroplen]; omega)).trans ?_
    rw [getD_drop]
    congr 1
    omega

/-- Witness for C5: a 4-byte overwriting ring receiving the 6-byte buffer
`[1,2,3,4,5,6]` advances `wpos` by 4 and stores the trailing byte `4` of
the discarded-prefix copy at physical index 1. -/
theorem infiniteRing_writeAll_spec_witness :
    ((InfiniteRing.mk 0 4 0 0 (fun _ => 0)).writeAll [1, 2, 3, 4, 5, 6]).2.wpos = 4
    ∧ ((InfiniteRing.mk 0 4 0 0 (fun _ => 0)).writeAll [1, 2, 3, 4, 5, 6]).2.mem 1
        = 4 :=
  ⟨(infiniteRing_writeAll_spec (InfiniteRing.mk 0 4 0 0 (fun _ => 0))
      [1, 2, 3, 4, 5, 6] (by decide)).2.1.trans (by decide),
   ((infiniteRing_writeAll_spec (InfiniteRing.mk 0 4 0 0 (fun _ => 0))
      [1, 2, 3, 4, 5, 6] (by decide)).2.2.2.2.2.2 1 (by decide)).trans (by decide)⟩

end Vmap
